import Mathlib

/-!
Verification of `app.py` from the `stock_korea_os` repository: a Streamlit
dashboard that fetches stock time series from an HTTP API, computes six
summary statistics over one oscillator column, and renders charts.

The embedding models pandas DataFrames as association lists of named
columns of rational values (exact arithmetic in place of float64),
pandas `Series.quantile` with its default linear interpolation,
`requests` calls as a stream of responses consumed one at a time, and
Streamlit output as a list of UI elements.
-/

namespace StockApp

/-! ## Series-level operations (pandas semantics over a column of rationals) -/

/-- `series.iloc[-1]`: the last element of the column.  The default is never
reached in guarded uses (the column is non-empty there). -/
def seriesLast (xs : List ℚ) : ℚ := xs.getLastD 0

/-- `series.mean()`: sum of the values divided by their count. -/
def seriesMean (xs : List ℚ) : ℚ := xs.sum / (xs.length : ℚ)

/-- Floor of a rational, clipped to ℕ, written with integer division so the
kernel can evaluate it on literals.  Agrees with `⌊q⌋.toNat` (see
`ratFloorNat_eq_floor`). -/
def ratFloorNat (q : ℚ) : ℕ := (q.num / (q.den : ℤ)).toNat

/-- Linear interpolation at virtual index `h` within the sorted column `s`,
as numpy does for `interpolation='linear'`: `h` is split into integer part
`i` and fractional part, and the result interpolates between `s[i]` and
`s[i+1]`. -/
def interpAt (s : List ℚ) (h : ℚ) : ℚ :=
  s.getD (ratFloorNat h) 0 +
    (h - (ratFloorNat h : ℚ)) *
      (s.getD (ratFloorNat h + 1) 0 - s.getD (ratFloorNat h) 0)

/-- `series.quantile(q)` with the default linear interpolation: sort the
values, then interpolate at virtual index `(n-1)*q`. -/
def seriesQuantile (xs : List ℚ) (q : ℚ) : ℚ :=
  interpAt (List.insertionSort (· ≤ ·) xs)
    (((xs.length : ℚ) - 1) * q)

/-! ## DataFrame model -/

/-- A pandas DataFrame: a row count and named columns, each column holding
one rational per row. -/
structure DataFrame where
  nrows : ℕ
  cols : List (String × List ℚ)
  hlen : ∀ p ∈ cols, p.2.length = nrows

/-- `df.empty`: true when either axis has length zero. -/
def DataFrame.isEmpty (df : DataFrame) : Bool :=
  df.nrows = 0 || df.cols.isEmpty

/-- `df.columns`: the list of column names. -/
def DataFrame.colNames (df : DataFrame) : List String :=
  df.cols.map Prod.fst

/-- `df[name]`: the first column with the given name (empty if absent; the
callers guard on membership). -/
def DataFrame.getCol (df : DataFrame) (name : String) : List ℚ :=
  match df.cols.find? (fun p => p.1 == name) with
  | some p => p.2
  | none => []

/-- `calculate_stats(data, osc_col_name)` from `app.py`: returns `{}` when
the frame is empty or the column is missing, otherwise a dict (modelled as
an ordered association list, matching Python dict insertion order) of the
six statistics. -/
def calculate_stats (data : DataFrame) (osc_col_name : String) :
    List (String × ℚ) :=
  if data.isEmpty || !(data.colNames.contains osc_col_name) then []
  else
    let c := data.getCol osc_col_name
    [("현재 값", seriesLast c),
     ("상위 10%", seriesQuantile c 0.9),
     ("상위 25%", seriesQuantile c 0.75),
     ("평균", seriesMean c),
     ("하위 25%", seriesQuantile c 0.25),
     ("하위 10%", seriesQuantile c 0.1)]

/-! ## Stock search (`search_stock_code`) -/

/-- A record of the stock-list endpoint: `{'code': ..., 'name': ...}`. -/
structure Stock where
  code : String
  name : String
deriving DecidableEq, Repr

/-- Whether the first character list is an initial segment of the second. -/
def isPrefixChars : List Char → List Char → Bool
  | [], _ => true
  | _ :: _, [] => false
  | a :: as, b :: bs => a == b && isPrefixChars as bs

/-- Python's substring test `needle in hay`, on character lists. -/
def hasSubstring : List Char → List Char → Bool
  | needle, [] => isPrefixChars needle []
  | needle, c :: rest => isPrefixChars needle (c :: rest) || hasSubstring needle rest

/-- `keyword in stock['name']` from the dict comprehension in
`search_stock_code`. -/
def nameMatches (keyword : String) (s : Stock) : Bool :=
  hasSubstring keyword.data s.name.data

/-- Insertion into a Python dict rendered as an ordered association list:
an existing key is overwritten in place, a new key is appended. -/
def dictInsert (d : List (String × String)) (k v : String) :
    List (String × String) :=
  if d.any (fun p => p.1 == k) then
    d.map (fun p => if p.1 == k then (k, v) else p)
  else d ++ [(k, v)]

/-- The dict comprehension
`{stock['code']: stock['name'] for stock in stock_list if keyword in stock['name']}`,
folded left over the stock list with Python dict insertion. -/
def buildSimilar (keyword : String) : List Stock → List (String × String) →
    List (String × String)
  | [], d => d
  | s :: rest, d =>
      buildSimilar keyword rest
        (if nameMatches keyword s then dictInsert d s.code s.name else d)

/-- `search_stock_code(keyword, stock_list)` from `app.py`.  The Python
argument may be `None` (modelled by `Option`); `if not stock_list` is true
for both `None` and the empty list.  The first component models the
`[stock['code']]` exact-match result, the second the `similar_stocks`
dict (`None` when the dict is empty). -/
def search_stock_code (keyword : String) (stock_list : Option (List Stock)) :
    Option (List String) × Option (List (String × String)) :=
  match stock_list with
  | none => (none, none)
  | some l =>
    if l.isEmpty then (none, none)
    else
      match l.find? (fun s => s.name == keyword) with
      | some s => (some [s.code], none)
      | none =>
        let sim := buildSimilar keyword l []
        (none, if sim.isEmpty then none else some sim)

/-! ## API fetching and page rendering -/

/-- A row of the per-stock endpoint: the raw `'날짜'` string plus the other
columns, kept opaquely as name/value pairs. -/
structure StockRow where
  dateStr : String
  fields : List (String × ℚ)
deriving DecidableEq

/-- Abstract model of `pd.to_datetime` on a single value: succeeds exactly
on non-empty decimal strings (epoch-style timestamps), standing in for
pandas date parsing, which happens outside this repository.  `none` models
a raised parse error. -/
def parseDate (s : String) : Option ℕ :=
  if s.data ≠ [] ∧ s.data.all (fun c => c.isDigit) then
    some (s.data.foldl (fun n c => 10 * n + (c.toNat - 48)) 0)
  else none

/-- Collects per-row parse results; `none` when any parse fails (pandas
raises on the whole column). -/
def allSome : List (Option ℕ) → Option (List ℕ)
  | [] => some []
  | none :: _ => none
  | some a :: rest => (allSome rest).map (fun l => a :: l)

/-- The table returned by `fetch_data_from_api`: the parsed `'날짜'` column
as the index (`df.set_index('날짜')`), and the remaining row data in
response order. -/
structure TimeDF where
  index : List ℕ
  rows : List (List (String × ℚ))
deriving DecidableEq

/-- Outcome of `fetch_data_from_api`: a table, a caught failure (the
function returned `None` after `st.error`), or an uncaught exception from
date parsing (a `ValueError` is not a `RequestException`, so the handler
does not catch it). -/
inductive FetchDataResult
  | ok (df : TimeDF)
  | failed
  | raised
deriving DecidableEq

/-- `fetch_stock_list_from_api()`: issues one GET against the stream of
pending responses (an `Except.error` models a raised
`requests.exceptions.RequestException`, including `raise_for_status`).
Returns the parsed stock list (or `None` after the caught exception), the
`st.error` messages emitted, and the responses left unconsumed - the code
issues exactly one request, so exactly one response is consumed. -/
def fetch_stock_list_from_api (net : List (Except String (List Stock))) :
    Option (List Stock) × List String × List (Except String (List Stock)) :=
  match net with
  | [] => (none, [], [])
  | Except.ok v :: rest => (some v, [], rest)
  | Except.error e :: rest =>
      (none, ["전체 종목 목록 API 호출 실패: " ++ e], rest)

/-- `fetch_data_from_api(stock_code)`: one GET, then
`pd.to_datetime(df['날짜'])` and `df.set_index('날짜')` inside the `try`
block; only `RequestException` is caught and surfaced via `st.error`. -/
def fetch_data_from_api (stock_code : String)
    (net : List (Except String (List StockRow))) :
    FetchDataResult × List String × List (Except String (List StockRow)) :=
  match net with
  | [] => (FetchDataResult.raised, [], [])
  | Except.error e :: rest =>
      (FetchDataResult.failed,
        ["종목 데이터 API 호출 실패 (" ++ stock_code ++ "): " ++ e], rest)
  | Except.ok rows :: rest =>
      match allSome (rows.map (fun r => parseDate r.dateStr)) with
      | none => (FetchDataResult.raised, [], rest)
      | some dates =>
          (FetchDataResult.ok ⟨dates, rows.map (fun r => r.fields)⟩, [], rest)

/-- One visible element of the Streamlit page. -/
inductive UIElem
  | errorMsg (s : String)
  | content (tag : String)
deriving DecidableEq

/-- The stock-list portion of the page controller: the fetch's error
messages, then either the search UI (when the list is truthy) or the
connection-error banner of the `else` branch; note `if
stock_list_from_api:` is also false for an empty list. -/
def page_stock_section (net : List (Except String (List Stock))) :
    List UIElem :=
  let res := fetch_stock_list_from_api net
  res.2.1.map UIElem.errorMsg ++
    match res.1 with
    | some l =>
        if l.isEmpty then
          [UIElem.errorMsg "API 서버에 연결할 수 없습니다. 서버가 실행 중인지 확인하세요."]
        else [UIElem.content "stock_search_ui"]
    | none =>
        [UIElem.errorMsg "API 서버에 연결할 수 없습니다. 서버가 실행 중인지 확인하세요."]

/-- The per-stock portion of the page controller, once a code is selected:
`if data is not None and not data.empty:` guards all further rendering, so
a `None` or empty result renders nothing beyond the fetch's own error
messages; an uncaught parse error aborts the page. -/
def page_data_section (stock_code : String)
    (net : List (Except String (List StockRow))) : List UIElem :=
  let res := fetch_data_from_api stock_code net
  res.2.1.map UIElem.errorMsg ++
    match res.1 with
    | FetchDataResult.ok df =>
        if df.rows.isEmpty then [] else [UIElem.content "analysis"]
    | FetchDataResult.failed => []
    | FetchDataResult.raised => []

/-! ## Concrete inputs used by the witnesses -/

/-- A concrete frame used by the witnesses: three rows, one column. -/
def dfEx : DataFrame :=
  ⟨3, [("X", [1, 2, 3])], by decide⟩

/-- A concrete empty frame used by the witnesses. -/
def dfEmpty : DataFrame :=
  ⟨0, [], by decide⟩

/-! ## Helper lemmas about the DataFrame model -/

theorem ratFloorNat_eq_floor (q : ℚ) (hq : 0 ≤ q) :
    (ratFloorNat q : ℤ) = ⌊q⌋ := by
  unfold ratFloorNat
  rw [← Rat.floor_def]
  exact Int.toNat_of_nonneg (Int.floor_nonneg.mpr hq)

theorem ratFloorNat_le {q : ℚ} (hq : 0 ≤ q) : (ratFloorNat q : ℚ) ≤ q := by
  have h := ratFloorNat_eq_floor q hq
  have hf : ((⌊q⌋ : ℤ) : ℚ) ≤ q := Int.floor_le q
  rw [← h] at hf
  exact_mod_cast hf

theorem lt_ratFloorNat_add_one {q : ℚ} (hq : 0 ≤ q) :
    q < (ratFloorNat q : ℚ) + 1 := by
  have h := ratFloorNat_eq_floor q hq
  have hf : q < ((⌊q⌋ : ℤ) : ℚ) + 1 := Int.lt_floor_add_one q
  rw [← h] at hf
  exact_mod_cast hf

/-- Monotone access into a sorted column, with the `getD` totalization used
by `interpAt`. -/
theorem sorted_getD_mono {s : List ℚ} (hs : s.Sorted (· ≤ ·)) {i j : ℕ}
    (hij : i ≤ j) (hj : j < s.length) : s.getD i 0 ≤ s.getD j 0 := by
  have hi : i < s.length := Nat.lt_of_le_of_lt hij hj
  rw [List.getD_eq_getElem?_getD, List.getD_eq_getElem?_getD,
      List.getElem?_eq_getElem hi, List.getElem?_eq_getElem hj]
  rcases Nat.lt_or_ge i j with hlt | hge
  · exact List.pairwise_iff_getElem.mp hs i j hi hj hlt
  · have heq : i = j := Nat.le_antisymm hij hge
    subst heq
    exact le_refl _

/-- Core step for quantile monotonicity: interpolating at virtual index `a`
inside cell `i` is bounded by interpolating at virtual index `b ≥ a` inside
cell `j`, for a sorted column. -/
theorem interp_cell_mono {s : List ℚ} (hs : s.Sorted (· ≤ ·)) {a b : ℚ}
    {i j : ℕ} (hia : (i : ℚ) ≤ a) (hia' : a < (i : ℚ) + 1)
    (hjb : (j : ℚ) ≤ b) (hjb' : b < (j : ℚ) + 1)
    (hab : a ≤ b) (hjn : j + 1 ≤ s.length) (hbtop : b ≤ (s.length : ℚ) - 1) :
    s.getD i 0 + (a - (i : ℚ)) * (s.getD (i + 1) 0 - s.getD i 0) ≤
      s.getD j 0 + (b - (j : ℚ)) * (s.getD (j + 1) 0 - s.getD j 0) := by
  have hij : i ≤ j := by
    have hq : (i : ℚ) < (j : ℚ) + 1 := lt_of_le_of_lt (le_trans hia hab) hjb'
    have hn : i < j + 1 := by exact_mod_cast hq
    exact Nat.lt_succ_iff.mp hn
  have hjlt : j < s.length := hjn
  rcases Nat.eq_or_lt_of_le hij with heq | hlt
  · -- both virtual indices fall in the same cell
    subst heq
    rcases Nat.eq_or_lt_of_le hjn with hend | hmid
    · -- the cell is the last position: both indices are exactly n-1
      have hiq : ((i : ℚ) + 1) = (s.length : ℚ) := by exact_mod_cast hend
      have hai : a = (i : ℚ) := le_antisymm (by linarith) hia
      have hbi : b = (i : ℚ) := le_antisymm (by linarith) hjb
      rw [hai, hbi]
    · have hd : s.getD i 0 ≤ s.getD (i + 1) 0 :=
        sorted_getD_mono hs (Nat.le_succ i) hmid
      have hstep : (a - (i : ℚ)) * (s.getD (i + 1) 0 - s.getD i 0) ≤
          (b - (i : ℚ)) * (s.getD (i + 1) 0 - s.getD i 0) :=
        mul_le_mul_of_nonneg_right (by linarith) (by linarith)
      linarith
  · -- the first index lies in a strictly earlier cell
    have hi1j : i + 1 ≤ j := hlt
    have hi1n : i + 1 < s.length := Nat.lt_of_le_of_lt hi1j hjlt
    have hd1 : s.getD i 0 ≤ s.getD (i + 1) 0 :=
      sorted_getD_mono hs (Nat.le_succ i) hi1n
    have step1 : s.getD i 0 + (a - (i : ℚ)) * (s.getD (i + 1) 0 - s.getD i 0) ≤
        s.getD (i + 1) 0 := by nlinarith
    have step2 : s.getD (i + 1) 0 ≤ s.getD j 0 :=
      sorted_getD_mono hs hi1j hjlt
    have step3 : s.getD j 0 ≤
        s.getD j 0 + (b - (j : ℚ)) * (s.getD (j + 1) 0 - s.getD j 0) := by
      rcases Nat.eq_or_lt_of_le hjn with hend | hmid
      · have hjq : ((j : ℚ) + 1) = (s.length : ℚ) := by exact_mod_cast hend
        have hbj : b = (j : ℚ) := le_antisymm (by linarith) hjb
        rw [hbj]
        simp
      · have hd2 : s.getD j 0 ≤ s.getD (j + 1) 0 :=
          sorted_getD_mono hs (Nat.le_succ j) hmid
        nlinarith
    linarith

/-- Linear interpolation into a sorted column is monotone in the virtual
index, as long as the index stays within `[0, n-1]`. -/
theorem interpAt_mono {s : List ℚ} (hs : s.Sorted (· ≤ ·))
    {a b : ℚ} (ha : 0 ≤ a) (hab : a ≤ b) (hb : b ≤ (s.length : ℚ) - 1) :
    interpAt s a ≤ interpAt s b := by
  have hb0 : 0 ≤ b := le_trans ha hab
  have hjn : ratFloorNat b + 1 ≤ s.length := by
    have hjb : ((ratFloorNat b : ℕ) : ℚ) ≤ b := ratFloorNat_le hb0
    have hq : ((ratFloorNat b : ℕ) : ℚ) + 1 ≤ (s.length : ℚ) := by linarith
    exact_mod_cast hq
  exact interp_cell_mono hs (ratFloorNat_le ha) (lt_ratFloorNat_add_one ha)
    (ratFloorNat_le hb0) (lt_ratFloorNat_add_one hb0) hab hjn hb

/-- Monotonicity of `series.quantile` in the quantile level, for a non-empty
column and levels within `[0, 1]`. -/
theorem seriesQuantile_mono {xs : List ℚ} (hne : xs ≠ [])
    {q1 q2 : ℚ} (hq0 : 0 ≤ q1) (hq12 : q1 ≤ q2) (hq1 : q2 ≤ 1) :
    seriesQuantile xs q1 ≤ seriesQuantile xs q2 := by
  unfold seriesQuantile
  have hn1 : 1 ≤ xs.length := List.length_pos.mpr hne
  have hcoef : (0 : ℚ) ≤ (xs.length : ℚ) - 1 := by
    have hc : (1 : ℚ) ≤ (xs.length : ℚ) := by exact_mod_cast hn1
    linarith
  have hlen : ((List.insertionSort (· ≤ ·) xs).length : ℚ) = (xs.length : ℚ) := by
    exact_mod_cast congrArg Nat.cast (List.length_insertionSort (· ≤ ·) xs)
  apply interpAt_mono (List.sorted_insertionSort (· ≤ ·) xs)
  · exact mul_nonneg hcoef hq0
  · exact mul_le_mul_of_nonneg_left hq12 hcoef
  · rw [hlen]
    calc ((xs.length : ℚ) - 1) * q2 ≤ ((xs.length : ℚ) - 1) * 1 :=
          mul_le_mul_of_nonneg_left hq1 hcoef
      _ = (xs.length : ℚ) - 1 := mul_one _

theorem calculate_stats_eq (df : DataFrame) (osc : String)
    (h1 : df.isEmpty = false) (h2 : osc ∈ df.colNames) :
    calculate_stats df osc =
      [("현재 값", seriesLast (df.getCol osc)),
       ("상위 10%", seriesQuantile (df.getCol osc) 0.9),
       ("상위 25%", seriesQuantile (df.getCol osc) 0.75),
       ("평균", seriesMean (df.getCol osc)),
       ("하위 25%", seriesQuantile (df.getCol osc) 0.25),
       ("하위 10%", seriesQuantile (df.getCol osc) 0.1)] := by
  unfold calculate_stats
  have hc : df.colNames.contains osc = true := List.elem_eq_true_of_mem h2
  rw [h1, hc]
  simp

theorem getCol_length (df : DataFrame) (osc : String)
    (h2 : osc ∈ df.colNames) : (df.getCol osc).length = df.nrows := by
  unfold DataFrame.getCol
  obtain ⟨p, hp, hpn⟩ := List.mem_map.mp h2
  have hsome : (df.cols.find? (fun p => p.1 == osc)).isSome := by
    apply List.find?_isSome.mpr
    exact ⟨p, hp, by simp [hpn]⟩
  obtain ⟨q, hq⟩ := Option.isSome_iff_exists.mp hsome
  rw [hq]
  exact df.hlen q (List.mem_of_find?_eq_some hq)

theorem getCol_ne_nil (df : DataFrame) (osc : String)
    (h1 : df.isEmpty = false) (h2 : osc ∈ df.colNames) :
    df.getCol osc ≠ [] := by
  have hn : df.nrows ≠ 0 := by
    intro h
    simp [DataFrame.isEmpty, h] at h1
  intro hnil
  have := getCol_length df osc h2
  rw [hnil] at this
  exact hn this.symm

/-! ## Claim theorems for `calculate_stats` -/

/-- C1: for every non-empty DataFrame whose columns contain the given
oscillator column name, the value returned by `calculate_stats` under the
key `'평균'` equals the arithmetic mean (sum of the column's values divided
by their count) of that column. -/
theorem stats_mean_is_arith_mean (df : DataFrame) (osc : String)
    (h1 : df.isEmpty = false) (h2 : osc ∈ df.colNames) :
    (calculate_stats df osc).lookup "평균" =
      some ((df.getCol osc).sum / ((df.getCol osc).length : ℚ)) := by
  rw [calculate_stats_eq df osc h1 h2]
  rfl

theorem stats_mean_is_arith_mean_witness :
    (calculate_stats dfEx "X").lookup "평균" =
      some ((dfEx.getCol "X").sum / ((dfEx.getCol "X").length : ℚ)) :=
  stats_mean_is_arith_mean dfEx "X" (by decide) (by decide)

/-- C2: for every non-empty DataFrame whose columns contain the given
oscillator column name, the value returned by `calculate_stats` under the
key `'현재 값'` equals the last element (last row's value) of that column. -/
theorem stats_current_is_last (df : DataFrame) (osc : String)
    (h1 : df.isEmpty = false) (h2 : osc ∈ df.colNames) :
    df.getCol osc ≠ [] ∧
    (calculate_stats df osc).lookup "현재 값" = (df.getCol osc).getLast? := by
  have hne := getCol_ne_nil df osc h1 h2
  refine ⟨hne, ?_⟩
  rw [calculate_stats_eq df osc h1 h2]
  show some (seriesLast (df.getCol osc)) = _
  obtain ⟨x, hx⟩ := Option.isSome_iff_exists.mp
    (List.getLast?_isSome.mpr hne)
  unfold seriesLast
  rw [List.getLastD_eq_getLast?, hx]
  rfl

theorem stats_current_is_last_witness :
    dfEx.getCol "X" ≠ [] ∧
    (calculate_stats dfEx "X").lookup "현재 값" = (dfEx.getCol "X").getLast? :=
  stats_current_is_last dfEx "X" (by decide) (by decide)

/-- C3: for every DataFrame and oscillator column name, if the DataFrame is
empty then `calculate_stats` returns an empty dictionary. -/
theorem stats_empty_input (df : DataFrame) (osc : String)
    (h : df.isEmpty = true) : calculate_stats df osc = [] := by
  unfold calculate_stats
  rw [h]
  rfl

theorem stats_empty_input_witness :
    calculate_stats dfEmpty "X" = [] :=
  stats_empty_input dfEmpty "X" (by decide)

/-- C4: for every non-empty numeric column given to `calculate_stats`, the
returned quantile statistics are monotonically non-increasing in the listed
order: the 90th percentile (`'상위 10%'`) is greater than or equal to the
75th percentile (`'상위 25%'`), which is greater than or equal to the 25th
percentile (`'하위 25%'`), which is greater than or equal to the 10th
percentile (`'하위 10%'`). -/
theorem stats_quantiles_monotone (df : DataFrame) (osc : String)
    (h1 : df.isEmpty = false) (h2 : osc ∈ df.colNames) :
    ((calculate_stats df osc).lookup "상위 10%" =
        some (seriesQuantile (df.getCol osc) 0.9) ∧
      (calculate_stats df osc).lookup "상위 25%" =
        some (seriesQuantile (df.getCol osc) 0.75) ∧
      (calculate_stats df osc).lookup "하위 25%" =
        some (seriesQuantile (df.getCol osc) 0.25) ∧
      (calculate_stats df osc).lookup "하위 10%" =
        some (seriesQuantile (df.getCol osc) 0.1)) ∧
    seriesQuantile (df.getCol osc) 0.75 ≤ seriesQuantile (df.getCol osc) 0.9 ∧
    seriesQuantile (df.getCol osc) 0.25 ≤ seriesQuantile (df.getCol osc) 0.75 ∧
    seriesQuantile (df.getCol osc) 0.1 ≤ seriesQuantile (df.getCol osc) 0.25 := by
  have hne := getCol_ne_nil df osc h1 h2
  refine ⟨?_, ?_, ?_, ?_⟩
  · rw [calculate_stats_eq df osc h1 h2]
    exact ⟨rfl, rfl, rfl, rfl⟩
  · exact seriesQuantile_mono hne (by norm_num) (by norm_num) (by norm_num)
  · exact seriesQuantile_mono hne (by norm_num) (by norm_num) (by norm_num)
  · exact seriesQuantile_mono hne (by norm_num) (by norm_num) (by norm_num)

theorem stats_quantiles_monotone_witness :
    ((calculate_stats dfEx "X").lookup "상위 10%" =
        some (seriesQuantile (dfEx.getCol "X") 0.9) ∧
      (calculate_stats dfEx "X").lookup "상위 25%" =
        some (seriesQuantile (dfEx.getCol "X") 0.75) ∧
      (calculate_stats dfEx "X").lookup "하위 25%" =
        some (seriesQuantile (dfEx.getCol "X") 0.25) ∧
      (calculate_stats dfEx "X").lookup "하위 10%" =
        some (seriesQuantile (dfEx.getCol "X") 0.1)) ∧
    seriesQuantile (dfEx.getCol "X") 0.75 ≤ seriesQuantile (dfEx.getCol "X") 0.9 ∧
    seriesQuantile (dfEx.getCol "X") 0.25 ≤ seriesQuantile (dfEx.getCol "X") 0.75 ∧
    seriesQuantile (dfEx.getCol "X") 0.1 ≤ seriesQuantile (dfEx.getCol "X") 0.25 :=
  stats_quantiles_monotone dfEx "X" (by decide) (by decide)

/-- C5: for every non-empty DataFrame containing the given oscillator
column, `calculate_stats` returns a dictionary with exactly these six
entries, in insertion order: the last value (`'현재 값'`), the 90th
percentile (`'상위 10%'`), the 75th percentile (`'상위 25%'`), the mean
(`'평균'`), the 25th percentile (`'하위 25%'`) and the 10th percentile
(`'하위 10%'`) of that single column. -/
theorem stats_six_entries (df : DataFrame) (osc : String)
    (h1 : df.isEmpty = false) (h2 : osc ∈ df.colNames) :
    calculate_stats df osc =
      [("현재 값", (df.getCol osc).getLastD 0),
       ("상위 10%", seriesQuantile (df.getCol osc) 0.9),
       ("상위 25%", seriesQuantile (df.getCol osc) 0.75),
       ("평균", (df.getCol osc).sum / ((df.getCol osc).length : ℚ)),
       ("하위 25%", seriesQuantile (df.getCol osc) 0.25),
       ("하위 10%", seriesQuantile (df.getCol osc) 0.1)] := by
  rw [calculate_stats_eq df osc h1 h2]
  rfl

theorem stats_six_entries_witness :
    calculate_stats dfEx "X" =
      [("현재 값", (dfEx.getCol "X").getLastD 0),
       ("상위 10%", seriesQuantile (dfEx.getCol "X") 0.9),
       ("상위 25%", seriesQuantile (dfEx.getCol "X") 0.75),
       ("평균", (dfEx.getCol "X").sum / ((dfEx.getCol "X").length : ℚ)),
       ("하위 25%", seriesQuantile (dfEx.getCol "X") 0.25),
       ("하위 10%", seriesQuantile (dfEx.getCol "X") 0.1)] :=
  stats_six_entries dfEx "X" (by decide) (by decide)

/-- C9: for every non-empty DataFrame whose columns do not contain the given
oscillator column name, `calculate_stats` returns an empty dictionary rather
than raising an error: the missing-column case yields the same empty result
as empty input. -/
theorem stats_missing_column (df : DataFrame) (osc : String)
    (h2 : osc ∉ df.colNames) : calculate_stats df osc = [] := by
  unfold calculate_stats
  cases hc : df.colNames.contains osc with
  | true => exact absurd (List.mem_of_elem_eq_true hc) h2
  | false => simp

theorem stats_missing_column_witness :
    ("Y" ∉ dfEx.colNames) ∧ calculate_stats dfEx "Y" = [] :=
  ⟨by decide, stats_missing_column dfEx "Y" (by decide)⟩

/-! ## Lemmas about the substring test and dict building -/

theorem isPrefixChars_refl : ∀ cs : List Char, isPrefixChars cs cs = true
  | [] => rfl
  | c :: rest => by
    show (c == c && isPrefixChars rest rest) = true
    rw [isPrefixChars_refl rest]
    simp

theorem hasSubstring_self (cs : List Char) : hasSubstring cs cs = true := by
  cases cs with
  | nil => rfl
  | cons c rest =>
    show (isPrefixChars (c :: rest) (c :: rest) || _) = true
    rw [isPrefixChars_refl]
    simp

theorem mem_dictInsert {d : List (String × String)} {k v : String}
    {p : String × String} (hp : p ∈ dictInsert d k v) : p ∈ d ∨ p = (k, v) := by
  unfold dictInsert at hp
  split at hp
  · obtain ⟨q, hq, hqe⟩ := List.mem_map.mp hp
    cases hk : (q.1 == k) with
    | true => right; rw [if_pos hk] at hqe; exact hqe.symm
    | false =>
      left
      rw [if_neg (by simp [hk])] at hqe
      exact hqe ▸ hq
  · rcases List.mem_append.mp hp with h | h
    · exact Or.inl h
    · exact Or.inr (by simpa using h)

theorem self_mem_dictInsert (d : List (String × String)) (k v : String) :
    (k, v) ∈ dictInsert d k v := by
  unfold dictInsert
  split
  · next hany =>
      obtain ⟨q, hq, hqk⟩ := List.any_eq_true.mp hany
      exact List.mem_map.mpr ⟨q, hq, by rw [if_pos hqk]⟩
  · exact List.mem_append.mpr (Or.inr (by simp))

theorem key_mem_dictInsert {d : List (String × String)} {k' v' : String}
    (k v : String) (h : (k', v') ∈ d) :
    ∃ v'', (k', v'') ∈ dictInsert d k v := by
  by_cases hk : k' = k
  · subst hk
    exact ⟨v, self_mem_dictInsert d k' v⟩
  · unfold dictInsert
    split
    · exact ⟨v', List.mem_map.mpr ⟨(k', v'), h, by simp [hk]⟩⟩
    · exact ⟨v', List.mem_append.mpr (Or.inl h)⟩

theorem mem_buildSimilar {kw : String} {p : String × String} :
    ∀ (l : List Stock) (d : List (String × String)),
      p ∈ buildSimilar kw l d →
      p ∈ d ∨ ∃ s ∈ l, nameMatches kw s = true ∧ p = (s.code, s.name) := by
  intro l
  induction l with
  | nil => intro d hp; exact Or.inl hp
  | cons s rest ih =>
    intro d hp
    unfold buildSimilar at hp
    rcases ih _ hp with hd | ⟨t, ht, hm, hpe⟩
    · cases hnm : nameMatches kw s with
      | true =>
        rw [hnm] at hd
        rw [if_pos rfl] at hd
        rcases mem_dictInsert hd with h | h
        · exact Or.inl h
        · exact Or.inr ⟨s, List.mem_cons_self s rest, hnm, h⟩
      | false =>
        rw [hnm] at hd
        rw [if_neg (by simp)] at hd
        exact Or.inl hd
    · exact Or.inr ⟨t, List.mem_cons_of_mem s ht, hm, hpe⟩

theorem buildSimilar_preserves_key {kw k : String} :
    ∀ (l : List Stock) (d : List (String × String)) (v : String),
      (k, v) ∈ d → ∃ v', (k, v') ∈ buildSimilar kw l d := by
  intro l
  induction l with
  | nil => intro d v h; exact ⟨v, h⟩
  | cons s rest ih =>
    intro d v h
    show ∃ v', (k, v') ∈ buildSimilar kw rest
      (if nameMatches kw s then dictInsert d s.code s.name else d)
    cases hnm : nameMatches kw s with
    | true =>
      rw [if_pos rfl]
      obtain ⟨v'', hv''⟩ := key_mem_dictInsert s.code s.name h
      exact ih _ v'' hv''
    | false =>
      rw [if_neg (by simp)]
      exact ih _ v h

theorem buildSimilar_complete {kw : String} {t : Stock}
    (hm : nameMatches kw t = true) :
    ∀ (l : List Stock) (d : List (String × String)), t ∈ l →
      ∃ v, (t.code, v) ∈ buildSimilar kw l d := by
  intro l
  induction l with
  | nil => intro d ht; exact absurd ht (List.not_mem_nil t)
  | cons s rest ih =>
    intro d ht
    show ∃ v, (t.code, v) ∈ buildSimilar kw rest
      (if nameMatches kw s then dictInsert d s.code s.name else d)
    rcases List.mem_cons.mp ht with heq | hmem
    · subst heq
      rw [hm, if_pos rfl]
      exact buildSimilar_preserves_key rest _ t.name
        (self_mem_dictInsert d t.code t.name)
    · cases hnm : nameMatches kw s with
      | true => rw [if_pos rfl]; exact ih _ hmem
      | false => rw [if_neg (by simp)]; exact ih _ hmem

theorem buildSimilar_nomatch {kw : String} :
    ∀ (l : List Stock), (∀ s ∈ l, nameMatches kw s = false) →
      ∀ d, buildSimilar kw l d = d := by
  intro l
  induction l with
  | nil => intro _ d; rfl
  | cons s rest ih =>
    intro hall d
    have hs := hall s (List.mem_cons_self s rest)
    show buildSimilar kw rest
      (if nameMatches kw s then dictInsert d s.code s.name else d) = d
    rw [hs, if_neg (by simp)]
    exact ih (fun x hx => hall x (List.mem_cons_of_mem s hx)) d

/-! ## Claim theorems for `search_stock_code` -/

theorem isEmpty_false_of_ne_nil {l : List Stock} (hne : l ≠ []) :
    l.isEmpty = false := by
  cases l with
  | nil => exact absurd rfl hne
  | cons a t => rfl

/-- C7: for every non-empty stock list and keyword, `search_stock_code`
returns an exact match (a singleton list holding the code of a stock whose
name equals the keyword, paired with `None`) when such a stock exists;
otherwise `None` paired with the code-to-name mapping of every stock whose
name contains the keyword as a substring (the disambiguation candidates);
and `None` paired with `None` when no name contains the keyword. -/
theorem search_stock_code_cases (keyword : String) (l : List Stock)
    (hne : l ≠ []) :
    ((∃ s ∈ l, s.name = keyword) →
        ∃ s ∈ l, s.name = keyword ∧
          search_stock_code keyword (some l) = (some [s.code], none)) ∧
    ((∀ s ∈ l, s.name ≠ keyword) →
      (∃ s ∈ l, nameMatches keyword s = true) →
        ∃ d, search_stock_code keyword (some l) = (none, some d) ∧
          (∀ p ∈ d, ∃ s ∈ l, nameMatches keyword s = true ∧
            p = (s.code, s.name)) ∧
          (∀ s ∈ l, nameMatches keyword s = true → ∃ v, (s.code, v) ∈ d)) ∧
    ((∀ s ∈ l, nameMatches keyword s = false) →
        search_stock_code keyword (some l) = (none, none)) := by
  have hempty : l.isEmpty = false := isEmpty_false_of_ne_nil hne
  refine ⟨?_, ?_, ?_⟩
  · rintro ⟨s, hs, hname⟩
    have hsome : (l.find? (fun x => x.name == keyword)).isSome :=
      List.find?_isSome.mpr ⟨s, hs, by simp [hname]⟩
    obtain ⟨t, hfind⟩ := Option.isSome_iff_exists.mp hsome
    have htl : t ∈ l := List.mem_of_find?_eq_some hfind
    have htn : t.name = keyword := by
      have hb := List.find?_some hfind
      simpa using hb
    refine ⟨t, htl, htn, ?_⟩
    simp [search_stock_code, hempty, hfind]
  · intro hnoexact hsome
    have hfind : l.find? (fun s => s.name == keyword) = none := by
      rw [List.find?_eq_none]
      intro x hx
      simp [hnoexact x hx]
    obtain ⟨t, htl, htm⟩ := hsome
    obtain ⟨v, hv⟩ := buildSimilar_complete htm l [] htl
    have hsimne : (buildSimilar keyword l []).isEmpty = false := by
      cases hbs : buildSimilar keyword l [] with
      | nil => rw [hbs] at hv; exact absurd hv (List.not_mem_nil _)
      | cons a rest => rfl
    refine ⟨buildSimilar keyword l [], ?_, ?_, ?_⟩
    · simp [search_stock_code, hempty, hfind, hsimne]
    · intro p hp
      rcases mem_buildSimilar l [] hp with h | h
      · exact absurd h (List.not_mem_nil p)
      · exact h
    · intro s hs hm
      exact buildSimilar_complete hm l [] hs
  · intro hall
    have hfind : l.find? (fun s => s.name == keyword) = none := by
      rw [List.find?_eq_none]
      intro x hx hbeq
      have hxn : x.name = keyword := by simpa using hbeq
      have hcontra := hall x hx
      unfold nameMatches at hcontra
      rw [hxn, hasSubstring_self] at hcontra
      exact Bool.noConfusion hcontra
    have hbuild := buildSimilar_nomatch l hall []
    simp [search_stock_code, hempty, hfind, hbuild]

theorem search_stock_code_cases_witness :
    ((∃ s ∈ [Stock.mk "005930" "삼성전자"], s.name = "삼성전자") →
        ∃ s ∈ [Stock.mk "005930" "삼성전자"], s.name = "삼성전자" ∧
          search_stock_code "삼성전자" (some [Stock.mk "005930" "삼성전자"]) =
            (some [s.code], none)) ∧
    ((∀ s ∈ [Stock.mk "005930" "삼성전자"], s.name ≠ "삼성전자") →
      (∃ s ∈ [Stock.mk "005930" "삼성전자"], nameMatches "삼성전자" s = true) →
        ∃ d, search_stock_code "삼성전자" (some [Stock.mk "005930" "삼성전자"]) =
            (none, some d) ∧
          (∀ p ∈ d, ∃ s ∈ [Stock.mk "005930" "삼성전자"],
            nameMatches "삼성전자" s = true ∧ p = (s.code, s.name)) ∧
          (∀ s ∈ [Stock.mk "005930" "삼성전자"],
            nameMatches "삼성전자" s = true → ∃ v, (s.code, v) ∈ d)) ∧
    ((∀ s ∈ [Stock.mk "005930" "삼성전자"], nameMatches "삼성전자" s = false) →
        search_stock_code "삼성전자" (some [Stock.mk "005930" "삼성전자"]) =
          (none, none)) :=
  search_stock_code_cases "삼성전자" [Stock.mk "005930" "삼성전자"]
    (by simp)

/-- C10: for every keyword, when the stock list passed to
`search_stock_code` is `None` or empty, the function returns the pair
`(None, None)` without inspecting any element. -/
theorem search_stock_code_falsy (keyword : String) :
    search_stock_code keyword none = (none, none) ∧
    search_stock_code keyword (some []) = (none, none) :=
  ⟨rfl, rfl⟩

/-! ## Claim theorems for fetching and rendering -/

/-- C6 fails as stated: when the stock-list request raises, the fetch
emits exactly one error message, yet the page controller does not render
"nothing further" for that section - it adds the connection-error banner
of the `else` branch as a second user-visible message. -/
theorem fetch_error_extra_banner_cex :
    (fetch_stock_list_from_api [Except.error "boom"]).2.1.length = 1 ∧
    page_stock_section [Except.error "boom"] ≠
      (fetch_stock_list_from_api [Except.error "boom"]).2.1.map
        UIElem.errorMsg := by
  exact ⟨rfl, by decide⟩

/-- C6 (amended): on a `RequestException`, each fetch function catches it,
emits exactly one user-visible error message, returns `None` (resp. a
failed result), and consumes exactly one response - no retry or backoff;
the data section then renders nothing beyond that message, while the
stock-list section renders exactly one additional connection-error banner
and no further content. -/
theorem fetch_error_behavior (e code : String)
    (netS : List (Except String (List Stock)))
    (netD : List (Except String (List StockRow))) :
    fetch_stock_list_from_api (Except.error e :: netS) =
      (none, ["전체 종목 목록 API 호출 실패: " ++ e], netS) ∧
    fetch_data_from_api code (Except.error e :: netD) =
      (FetchDataResult.failed,
        ["종목 데이터 API 호출 실패 (" ++ code ++ "): " ++ e], netD) ∧
    page_stock_section (Except.error e :: netS) =
      [UIElem.errorMsg ("전체 종목 목록 API 호출 실패: " ++ e),
       UIElem.errorMsg "API 서버에 연결할 수 없습니다. 서버가 실행 중인지 확인하세요."] ∧
    page_data_section code (Except.error e :: netD) =
      [UIElem.errorMsg ("종목 데이터 API 호출 실패 (" ++ code ++ "): " ++ e)] :=
  ⟨rfl, rfl, rfl, rfl⟩

/-- C8 counterexample: a successful response whose rows repeat a date
yields a table whose index has duplicate entries - `set_index` does not
enforce uniqueness. -/
theorem fetch_data_dup_dates_cex :
    (fetch_data_from_api "A"
        [Except.ok [StockRow.mk "100" [], StockRow.mk "100" []]]).1 =
      FetchDataResult.ok (TimeDF.mk [100, 100] [[], []]) ∧
    ¬ (TimeDF.mk [100, 100] [[], []]).index.Nodup := by
  exact ⟨by decide, by decide⟩

/-- C8 (amended): whenever `fetch_data_from_api` returns a table, its
index is exactly the parsed `'날짜'` column - every index entry is a
successfully parsed timestamp - and the row data follows the response
order; uniqueness of the dates is not enforced. -/
theorem fetch_data_index_parsed (code : String) (rows : List StockRow)
    (rest : List (Except String (List StockRow))) (df : TimeDF)
    (hok : (fetch_data_from_api code (Except.ok rows :: rest)).1 =
      FetchDataResult.ok df) :
    allSome (rows.map (fun r => parseDate r.dateStr)) = some df.index ∧
    df.rows = rows.map (fun r => r.fields) := by
  simp only [fetch_data_from_api] at hok
  cases hall : allSome (rows.map (fun r => parseDate r.dateStr)) with
  | none =>
      rw [hall] at hok
      simp at hok
  | some dates =>
      rw [hall] at hok
      have hdf : TimeDF.mk dates (rows.map (fun r => r.fields)) = df :=
        FetchDataResult.ok.inj hok
      subst hdf
      exact ⟨rfl, rfl⟩

theorem fetch_data_index_parsed_witness :
    allSome ([StockRow.mk "100" []].map (fun r => parseDate r.dateStr)) =
      some (TimeDF.mk [100] [[]]).index ∧
    (TimeDF.mk [100] [[]]).rows =
      [StockRow.mk "100" []].map (fun r => r.fields) :=
  fetch_data_index_parsed "A" [StockRow.mk "100" []] [] (TimeDF.mk [100] [[]])
    (by decide)

end StockApp
